import Mathlib

/-!
Verification of the `blased` client library core: the deterministic
round-half-to-even primitive, the per-category player scoring formulas, the
half-point rating function, the roster shape of `Team` decoding, and the
error/cookie-extraction behaviour of the login path.

Embedding conventions:
* `f64` values flowing through arithmetic are embedded as elements of a
  `LinearOrderedField` with a `FloorRing` structure; concrete instances used
  below are `ℚ` (every finite IEEE-754 double is a rational, and all the
  operations inside `round_to_even` are exact on doubles) and `ℝ` (for the
  transcendental scoring formulas).
* IEEE-754 special values (NaN, ±∞) are modelled by the wrapper type `F64`
  with a rational payload for finite values; signed zeros are not
  distinguished.
-/

namespace Blased

/-- Rust `f64::round`: rounds to the nearest integer, half-way cases away from
zero (`0.5 → 1`, `-0.5 → -1`).  For `0 ≤ x` this is `⌊x + 1/2⌋`, for `x < 0`
it is `⌈x - 1/2⌉`. -/
def roundAway {α : Type} [LinearOrderedField α] [FloorRing α] (x : α) : α :=
  if 0 ≤ x then (⌊x + 1/2⌋ : ℤ) else (⌈x - 1/2⌉ : ℤ)

/-- `src/lib.rs` lines 128-137, the portable fallback:
```rust
pub fn round_to_even(x: f64) -> f64 {
    // inefficient fallback algorithm from CPython
    let rounded = x.round();
    if (x - rounded).abs() == 0.5 {
        2.0 * (x / 2.0).round()
    } else {
        rounded
    }
}
```
All intermediate operations (`round`, `-`, `abs`, `/ 2.0`, `* 2.0` on an
integer) are exact on IEEE-754 doubles, so the field embedding is faithful. -/
def round_to_even {α : Type} [LinearOrderedField α] [FloorRing α] (x : α) : α :=
  let rounded := roundAway x
  if |x - rounded| = 1/2 then 2 * roundAway (x / 2) else rounded

/-- The integer nearest to `x`, breaking exact ties (fractional part `1/2`)
toward the even neighbour: the semantics of IEEE-754
`roundToIntegralTiesToEven`, and of the SSE4.1 instruction behind
`_mm_round_pd(x, _MM_FROUND_TO_NEAREST_INT)` used by the `x86_64` path of
`round_to_even` (`src/lib.rs` lines 115-126). -/
def rteInt {α : Type} [LinearOrderedField α] [FloorRing α] (x : α) : ℤ :=
  if Int.fract x = 1/2 then (if Even ⌊x⌋ then ⌊x⌋ else ⌊x⌋ + 1) else round x

theorem roundAway_intCast {α : Type} [LinearOrderedField α] [FloorRing α]
    (n : ℤ) : roundAway (n : α) = n := by
  unfold roundAway
  split
  · rw [show ((n : α) + 1/2) = (1/2 : α) + n by ring, Int.floor_add_int]
    norm_num
  · rw [show ((n : α) - 1/2) = (-(1/2) : α) + n by ring, Int.ceil_add_int]
    norm_num

/-- `roundAway` in terms of the floor and the fractional part. -/
theorem roundAway_eq {α : Type} [LinearOrderedField α] [FloorRing α] (x : α) :
    roundAway x =
      if (0 ≤ x ∧ Int.fract x < 1/2) ∨ (¬ 0 ≤ x ∧ Int.fract x ≤ 1/2)
        then (⌊x⌋ : α) else ((⌊x⌋ : α) + 1) := by
  have hx : (⌊x⌋ : α) + Int.fract x = x := Int.floor_add_fract x
  have h0 : (0 : α) ≤ Int.fract x := Int.fract_nonneg x
  have h1 : Int.fract x < 1 := Int.fract_lt_one x
  unfold roundAway
  by_cases hs : 0 ≤ x
  · have hfl : ⌊x + 1/2⌋ = ⌊x⌋ + ⌊Int.fract x + 1/2⌋ := by
      conv_lhs => rw [← hx]
      rw [add_assoc, Int.floor_int_add]
    by_cases hf : Int.fract x < 1/2
    · have h2 : ⌊Int.fract x + 1/2⌋ = 0 :=
        Int.floor_eq_zero_iff.mpr ⟨by linarith, by linarith⟩
      rw [if_pos hs, if_pos (Or.inl ⟨hs, hf⟩), hfl, h2]
      push_cast
      ring
    · have h2 : ⌊Int.fract x + 1/2⌋ = 1 :=
        Int.floor_eq_iff.mpr ⟨by push_cast; linarith, by push_cast; linarith⟩
      rw [if_pos hs, if_neg (by rintro (⟨_, h⟩ | ⟨h, _⟩); exacts [hf h, h hs]),
        hfl, h2]
      push_cast
      ring
  · have hcl : ⌈x - 1/2⌉ = ⌊x⌋ + ⌈Int.fract x - 1/2⌉ := by
      conv_lhs => rw [← hx]
      rw [add_sub_assoc, add_comm, Int.ceil_add_int, add_comm]
    by_cases hf : Int.fract x ≤ 1/2
    · have h2 : ⌈Int.fract x - 1/2⌉ = 0 :=
        Int.ceil_eq_zero_iff.mpr (Set.mem_Ioc.mpr ⟨by linarith, by linarith⟩)
      rw [if_neg hs, if_pos (Or.inr ⟨hs, hf⟩), hcl, h2]
      push_cast
      ring
    · have h2 : ⌈Int.fract x - 1/2⌉ = 1 :=
        Int.ceil_eq_iff.mpr ⟨by push_cast; linarith, by push_cast; linarith⟩
      rw [if_neg hs, if_neg (by rintro (⟨h, _⟩ | ⟨_, h⟩); exacts [hs h, hf h]),
        hcl, h2]
      push_cast
      ring

theorem abs_sub_roundAway_eq_half_iff {α : Type} [LinearOrderedField α]
    [FloorRing α] (x : α) : |x - roundAway x| = 1/2 ↔ Int.fract x = 1/2 := by
  have hx : (⌊x⌋ : α) + Int.fract x = x := Int.floor_add_fract x
  have h0 : (0 : α) ≤ Int.fract x := Int.fract_nonneg x
  rw [roundAway_eq]
  split
  · rw [show x - (⌊x⌋ : α) = Int.fract x by linarith, abs_of_nonneg h0]
  · rw [show x - ((⌊x⌋ : α) + 1) = Int.fract x - 1 by linarith,
      abs_of_neg (by linarith [Int.fract_lt_one x])]
    constructor <;> intro h <;> linarith

/-- The (cast) value of Mathlib's `round` (round half up, `⌊x + 1/2⌋`, which
coincides with the nearest integer away from ties) in terms of floor and
fractional part. -/
theorem round_cast_eq {α : Type} [LinearOrderedField α] [FloorRing α] (x : α) :
    ((round x : ℤ) : α) =
      if Int.fract x < 1/2 then (⌊x⌋ : α) else (⌊x⌋ : α) + 1 := by
  have hx : (⌊x⌋ : α) + Int.fract x = x := Int.floor_add_fract x
  have h0 : (0 : α) ≤ Int.fract x := Int.fract_nonneg x
  have h1 : Int.fract x < 1 := Int.fract_lt_one x
  have hfl : ⌊x + 1/2⌋ = ⌊x⌋ + ⌊Int.fract x + 1/2⌋ := by
    conv_lhs => rw [← hx]
    rw [add_assoc, Int.floor_int_add]
  rw [round_eq]
  by_cases hf : Int.fract x < 1/2
  · have h2 : ⌊Int.fract x + 1/2⌋ = 0 :=
      Int.floor_eq_zero_iff.mpr ⟨by linarith, by linarith⟩
    rw [if_pos hf, hfl, h2]
    push_cast
    ring
  · have h2 : ⌊Int.fract x + 1/2⌋ = 1 :=
      Int.floor_eq_iff.mpr ⟨by push_cast; linarith, by push_cast; linarith⟩
    rw [if_neg hf, hfl, h2]
    push_cast
    ring

theorem roundAway_eq_round {α : Type} [LinearOrderedField α] [FloorRing α]
    (x : α) (h : Int.fract x ≠ 1/2) : roundAway x = ((round x : ℤ) : α) := by
  rw [roundAway_eq, round_cast_eq]
  rcases lt_or_gt_of_ne h with hf | hf
  · rw [if_pos ?_, if_pos hf]
    rcases le_or_lt 0 x with hs | hs
    · exact Or.inl ⟨hs, hf⟩
    · exact Or.inr ⟨not_le.mpr hs, le_of_lt hf⟩
  · rw [if_neg ?_, if_neg (not_lt.mpr (le_of_lt hf))]
    rintro (⟨_, h2⟩ | ⟨_, h2⟩) <;> linarith

theorem roundAway_int_add_quarter {α : Type} [LinearOrderedField α]
    [FloorRing α] (m : ℤ) : roundAway ((m : α) + 1/4) = (m : α) := by
  have hfr : Int.fract ((m : α) + 1/4) = 1/4 := by
    rw [Int.fract_int_add, Int.fract_eq_self.mpr ⟨by norm_num, by norm_num⟩]
  have hfl : ⌊(m : α) + 1/4⌋ = m := by
    rw [Int.floor_int_add, Int.floor_eq_zero_iff.mpr ⟨by norm_num, by norm_num⟩,
      add_zero]
  rw [roundAway_eq, hfr, hfl, if_pos ?_]
  rcases le_or_lt 0 ((m : α) + 1/4) with hs | hs
  · exact Or.inl ⟨hs, by norm_num⟩
  · exact Or.inr ⟨not_le.mpr hs, by norm_num⟩

theorem roundAway_int_add_three_quarters {α : Type} [LinearOrderedField α]
    [FloorRing α] (m : ℤ) : roundAway ((m : α) + 3/4) = (m : α) + 1 := by
  have hfr : Int.fract ((m : α) + 3/4) = 3/4 := by
    rw [Int.fract_int_add, Int.fract_eq_self.mpr ⟨by norm_num, by norm_num⟩]
  have hfl : ⌊(m : α) + 3/4⌋ = m := by
    rw [Int.floor_int_add, Int.floor_eq_zero_iff.mpr ⟨by norm_num, by norm_num⟩,
      add_zero]
  rw [roundAway_eq, hfr, hfl, if_neg ?_]
  rintro (⟨_, h2⟩ | ⟨_, h2⟩) <;> norm_num at h2

/-- The portable fallback computes exactly the round-half-to-even of its
argument. -/
theorem round_to_even_eq_rteInt {α : Type} [LinearOrderedField α] [FloorRing α]
    (x : α) : round_to_even x = ((rteInt x : ℤ) : α) := by
  unfold round_to_even rteInt
  by_cases h : Int.fract x = 1/2
  · rw [if_pos ((abs_sub_roundAway_eq_half_iff x).mpr h), if_pos h]
    have hx : x = (⌊x⌋ : α) + 1/2 := by
      have := Int.floor_add_fract x
      rw [h] at this
      linarith
    rcases Int.even_or_odd ⌊x⌋ with ⟨m, hm⟩ | ⟨m, hm⟩
    · have he : Even ⌊x⌋ := ⟨m, hm⟩
      have hdiv : x / 2 = (m : α) + 1/4 := by
        rw [hx, hm]
        push_cast
        ring
      rw [if_pos he, hdiv, roundAway_int_add_quarter, hm]
      push_cast
      ring
    · have he : ¬ Even ⌊x⌋ := by
        rw [← Int.not_odd_iff_even]
        simp only [not_not]
        exact ⟨m, hm⟩
      have hdiv : x / 2 = (m : α) + 3/4 := by
        rw [hx, hm]
        push_cast
        ring
      rw [if_neg he, hdiv, roundAway_int_add_three_quarters, hm]
      push_cast
      ring
  · rw [if_neg (fun hc => h ((abs_sub_roundAway_eq_half_iff x).mp hc)), if_neg h,
      roundAway_eq_round x h]

/-- `rteInt` really is the nearest integer, ties to even: it is within `1/2`
of the argument, and is even whenever the distance is exactly `1/2`. -/
theorem rteInt_spec {α : Type} [LinearOrderedField α] [FloorRing α] (x : α) :
    |x - ((rteInt x : ℤ) : α)| ≤ 1/2 ∧
      (|x - ((rteInt x : ℤ) : α)| = 1/2 → Even (rteInt x)) := by
  have hx : (⌊x⌋ : α) + Int.fract x = x := Int.floor_add_fract x
  have h0 : (0 : α) ≤ Int.fract x := Int.fract_nonneg x
  have h1 : Int.fract x < 1 := Int.fract_lt_one x
  unfold rteInt
  by_cases h : Int.fract x = 1/2
  · rw [if_pos h]
    by_cases he : Even ⌊x⌋
    · rw [if_pos he, show x - (⌊x⌋ : α) = 1/2 by rw [h] at hx; linarith]
      exact ⟨by rw [abs_of_nonneg (by norm_num : (0:α) ≤ 1/2)], fun _ => he⟩
    · rw [if_neg he]
      have : x - ((⌊x⌋ + 1 : ℤ) : α) = -(1/2) := by
        push_cast
        rw [h] at hx
        linarith
      rw [this]
      exact ⟨by rw [abs_of_nonpos] <;> norm_num,
        fun _ => Int.even_add_one.mpr he⟩
  · rw [if_neg h]
    by_cases hf : Int.fract x < 1/2
    · rw [round_cast_eq, if_pos hf, show x - (⌊x⌋ : α) = Int.fract x by linarith,
        abs_of_nonneg h0]
      exact ⟨le_of_lt hf, fun hc => absurd hc (ne_of_lt hf)⟩
    · have hf2 : 1/2 < Int.fract x := lt_of_le_of_ne (not_lt.mp hf) (Ne.symm h)
      rw [round_cast_eq, if_neg hf,
        show x - ((⌊x⌋ : α) + 1) = Int.fract x - 1 by linarith,
        abs_of_neg (by linarith)]
      exact ⟨by linarith, fun hc => absurd hc (by intro hc2; linarith)⟩

theorem rteInt_intCast {α : Type} [LinearOrderedField α] [FloorRing α]
    (n : ℤ) : rteInt ((n : ℤ) : α) = n := by
  unfold rteInt
  rw [Int.fract_intCast, if_neg (by norm_num), round_intCast]

theorem round_to_even_intCast {α : Type} [LinearOrderedField α] [FloorRing α]
    (n : ℤ) : round_to_even ((n : ℤ) : α) = (n : α) := by
  rw [round_to_even_eq_rteInt, rteInt_intCast]

theorem le_rteInt {α : Type} [LinearOrderedField α] [FloorRing α]
    (x : α) (a : ℤ) (h : (a : α) ≤ x) : a ≤ rteInt x := by
  have hs := (rteInt_spec x).1
  have h2 : (a : α) - 1 < ((rteInt x : ℤ) : α) := by
    rw [abs_le] at hs
    linarith [hs.1, hs.2]
  have : a - 1 < rteInt x := by exact_mod_cast h2
  omega

theorem rteInt_le {α : Type} [LinearOrderedField α] [FloorRing α]
    (x : α) (b : ℤ) (h : x ≤ (b : α)) : rteInt x ≤ b := by
  have hs := (rteInt_spec x).1
  have h2 : ((rteInt x : ℤ) : α) < (b : α) + 1 := by
    rw [abs_le] at hs
    linarith [hs.1, hs.2]
  have : rteInt x < b + 1 := by exact_mod_cast h2
  omega

/-! ## IEEE-754 special values

`F64` models an IEEE-754 double as either NaN, a signed infinity
(`inf true` is `-∞`), or a finite value.  Every finite double is a rational
number, so the finite payload is a `ℚ`.  Signed zeros are not distinguished,
and overflow to infinity is not modelled (irrelevant for the rounding
primitive, whose intermediate values never overflow). -/

inductive F64 : Type
  | nan : F64
  | inf : Bool → F64
  | finite : ℚ → F64
  deriving DecidableEq, Repr

namespace F64

/-- IEEE-754 subtraction on the model (NaN propagates; `∞ - ∞ = NaN`). -/
def sub : F64 → F64 → F64
  | nan, _ => nan
  | _, nan => nan
  | inf b, inf c => if b = c then nan else inf b
  | inf b, finite _ => inf b
  | finite _, inf c => inf (!c)
  | finite x, finite y => finite (x - y)

/-- IEEE-754 multiplication on the model (NaN propagates; `∞ · 0 = NaN`). -/
def mul : F64 → F64 → F64
  | nan, _ => nan
  | _, nan => nan
  | inf b, inf c => inf (xor b c)
  | inf b, finite y => if y = 0 then nan else inf (xor b (decide (y < 0)))
  | finite x, inf c => if x = 0 then nan else inf (xor (decide (x < 0)) c)
  | finite x, finite y => finite (x * y)

/-- IEEE-754 division on the model (NaN propagates; `∞ / ∞ = NaN`,
`x / ±∞ = 0`, division of a nonzero finite value by zero gives infinity). -/
def div : F64 → F64 → F64
  | nan, _ => nan
  | _, nan => nan
  | inf _, inf _ => nan
  | inf b, finite y => inf (xor b (decide (y < 0)))
  | finite _, inf _ => finite 0
  | finite x, finite y =>
    if y = 0 then (if x = 0 then nan else inf (decide (x < 0)))
    else finite (x / y)

/-- IEEE-754 absolute value on the model. -/
def abs : F64 → F64
  | nan => nan
  | inf _ => inf false
  | finite x => finite |x|

/-- IEEE-754 equality comparison (`==` on `f64`): NaN compares unequal to
everything, including itself. -/
def beq : F64 → F64 → Bool
  | nan, _ => false
  | _, nan => false
  | inf b, inf c => b = c
  | inf _, finite _ => false
  | finite _, inf _ => false
  | finite x, finite y => x = y

/-- Rust `f64::round` on the model: nearest integer, half away from zero;
NaN maps to NaN and each infinity to itself. -/
def round : F64 → F64
  | nan => nan
  | inf b => inf b
  | finite x => finite (roundAway x)

/-- `src/lib.rs` lines 128-137 read on the special-value model: the portable
fallback `round_to_even` with every `f64` operation interpreted by `F64`.
All finite intermediate operations of the source are exact on doubles. -/
def round_to_even (x : F64) : F64 :=
  let rounded := x.round
  if ((x.sub rounded).abs.beq (finite (1/2))) then
    (finite 2).mul ((x.div (finite 2)).round)
  else rounded

/-- `src/lib.rs` lines 115-126, the `x86_64` fast path, modelled by the
documented semantics of its single instruction:
`_mm_round_pd(x, _MM_FROUND_TO_NEAREST_INT)` performs IEEE-754
`roundToIntegralTiesToEven` (with the default MXCSR rounding mode), which
maps NaN to NaN, each infinity to itself, and a finite value to its nearest
integer with ties broken to the even neighbour. -/
def round_to_even_sse : F64 → F64
  | nan => nan
  | inf b => inf b
  | finite x => finite ((rteInt x : ℤ) : ℚ)

/-- On finite values the `F64` reading of the fallback agrees with the plain
field reading. -/
theorem round_to_even_finite (q : ℚ) :
    round_to_even (finite q) = finite (Blased.round_to_even q) := by
  unfold round_to_even Blased.round_to_even
  show (if ((finite (q - roundAway q)).abs.beq (finite (1/2))) then _ else _) = _
  rw [show (finite (q - roundAway q)).abs = finite |q - roundAway q| from rfl]
  by_cases h : |q - roundAway q| = 1/2
  · rw [if_pos (by simp only [beq, decide_eq_true_eq]; exact h), if_pos h]
    rfl
  · rw [if_neg (by simp only [beq, decide_eq_true_eq]; exact h), if_neg h]
    rfl

end F64

/-! ## Record types -/

/-- `src/lib.rs` lines 64-105: the `Player` record.  `f64` attribute fields
are embedded as `ℝ`, `usize` fields as `ℕ`. -/
structure Player where
  id : String
  anticapitalism : ℝ
  base_thirst : ℝ
  buoyancy : ℝ
  chasiness : ℝ
  coldness : ℝ
  continuation : ℝ
  divinity : ℝ
  ground_friction : ℝ
  indulgence : ℝ
  laserlikeness : ℝ
  martyrdom : ℝ
  moxie : ℝ
  musclitude : ℝ
  name : String
  bat : Option String
  omniscience : ℝ
  overpowerment : ℝ
  patheticism : ℝ
  ruthlessness : ℝ
  shakespearianism : ℝ
  suppression : ℝ
  tenaciousness : ℝ
  thwackability : ℝ
  tragicness : ℝ
  unthwackability : ℝ
  watchfulness : ℝ
  pressurization : ℝ
  total_fingers : ℕ
  soul : ℕ
  deceased : Bool
  peanut_allergy : Bool
  cinnamon : ℝ
  fate : ℕ
  armor : Option String
  ritual : Option String
  coffee : Option ℕ
  blood : Option ℕ

/-- `src/lib.rs` lines 107-113: the scoring category. -/
inductive Score : Type
  | Batting : Score
  | Pitching : Score
  | Defense : Score
  | Baserunning : Score
  | Vibes : (day : ℕ) → Score

/-- The denominator of the cosine argument in the Vibes score,
`5.0 * self.buoyancy + 3.0` (`src/lib.rs` line 171). -/
noncomputable def vibesDenominator (p : Player) : ℝ :=
  5 * p.buoyancy + 3

/-- `src/lib.rs` lines 140-177, `Player::score`, embedded over `ℝ`:
`powf` becomes `Real.rpow` (written `^`), `cos` becomes `Real.cos`, and the
`dbg!` wrapper in the Vibes arm (which prints its argument and returns it
unchanged) is dropped.  Multiplication order and grouping follow the source
text exactly. -/
noncomputable def Player.score (p : Player) (cat : Score) : ℝ :=
  match cat with
  | Score.Batting =>
    (1 - p.tragicness) ^ (0.01 : ℝ)
      * (1 - p.patheticism) ^ (0.05 : ℝ)
      * (p.thwackability * p.divinity) ^ (0.35 : ℝ)
      * (p.moxie * p.musclitude) ^ (0.075 : ℝ)
      * p.martyrdom ^ (0.02 : ℝ)
  | Score.Pitching =>
    p.unthwackability ^ (0.5 : ℝ)
      * p.ruthlessness ^ (0.4 : ℝ)
      * p.overpowerment ^ (0.15 : ℝ)
      * p.shakespearianism ^ (0.1 : ℝ)
      * p.coldness ^ (0.025 : ℝ)
  | Score.Defense =>
    (p.omniscience * p.tenaciousness) ^ (0.2 : ℝ)
      * (p.watchfulness * p.anticapitalism * p.chasiness) ^ (0.1 : ℝ)
  | Score.Baserunning =>
    p.laserlikeness ^ (0.5 : ℝ)
      * (p.base_thirst * p.continuation * p.ground_friction * p.indulgence)
          ^ (0.1 : ℝ)
  | Score.Vibes day =>
    0.5 * round_to_even
      ((p.pressurization + p.cinnamon)
          * Real.cos ((Real.pi * (day : ℝ)) / vibesDenominator p)
        - p.pressurization + p.cinnamon)

/-- `src/lib.rs` lines 179-181, `Player::rating`. -/
noncomputable def Player.rating (p : Player) (cat : Score) : ℝ :=
  0.5 * round_to_even (10 * p.score cat)

/-- The per-category formulas exactly as written in the spec (§4.1), to be
compared with the embedding of the source.  Exponentiation is `Real.rpow`,
`round_to_even` the rounding primitive, and multiplication is grouped as the
spec writes it (left to right). -/
noncomputable def scoreSpec (p : Player) (cat : Score) : ℝ :=
  match cat with
  | Score.Batting =>
    (1 - p.tragicness) ^ (0.01 : ℝ)
      * (1 - p.patheticism) ^ (0.05 : ℝ)
      * (p.thwackability * p.divinity) ^ (0.35 : ℝ)
      * (p.moxie * p.musclitude) ^ (0.075 : ℝ)
      * p.martyrdom ^ (0.02 : ℝ)
  | Score.Pitching =>
    p.unthwackability ^ (0.5 : ℝ)
      * p.ruthlessness ^ (0.4 : ℝ)
      * p.overpowerment ^ (0.15 : ℝ)
      * p.shakespearianism ^ (0.1 : ℝ)
      * p.coldness ^ (0.025 : ℝ)
  | Score.Defense =>
    (p.omniscience * p.tenaciousness) ^ (0.2 : ℝ)
      * (p.watchfulness * p.anticapitalism * p.chasiness) ^ (0.1 : ℝ)
  | Score.Baserunning =>
    p.laserlikeness ^ (0.5 : ℝ)
      * (p.base_thirst * p.continuation * p.ground_friction * p.indulgence)
          ^ (0.1 : ℝ)
  | Score.Vibes day =>
    0.5 * round_to_even
      ((p.pressurization + p.cinnamon)
          * Real.cos ((Real.pi * (day : ℝ)) / (5 * p.buoyancy + 3))
        - p.pressurization + p.cinnamon)

/-- The rating contract exactly as written in the spec (§4.3). -/
noncomputable def ratingSpec (p : Player) (cat : Score) : ℝ :=
  0.5 * round_to_even (10 * scoreSpec p cat)

/-! ## Errors -/

/-- The closed error enumeration of the core.  The three variants
`TransportError`, `DecodeError` and `EncodingError` embed `Error::Http`,
`Error::Json` and `Error::UrlEncode` of `src/lib.rs` lines 7-21 (their
payloads — the collaborator error values — are irrelevant to the claims and
dropped).  Modelled from the spec: the fourth kind, `UnexpectedResponseShape`
(§7, the error raised when login cannot locate the session cookie), belongs
to the `AuthenticatedClient` login module, which `examples/login.rs` calls
but which is absent from `src/`. -/
inductive Error : Type
  | TransportError : Error
  | DecodeError : Error
  | UnexpectedResponseShape : Error
  | EncodingError : Error
  deriving DecidableEq, Repr

/-- Fixed-length roster: a list of player identifiers together with its
length, mirroring the Rust `[String; n]` fields of `Team`. -/
def Roster (n : ℕ) : Type := { l : List String // l.length = n }

/-- `src/lib.rs` lines 36-62: the `Team` record.  The four roster fields are
`[String; 9]`, `[String; 5]`, `[String; 8]`, `[String; 3]` in the source. -/
structure Team where
  id : String
  lineup : Roster 9
  rotation : Roster 5
  bullpen : Roster 8
  bench : Roster 3
  season_attributes : List String
  permanent_attributes : List String
  full_name : String
  location : String
  main_color : String
  nickname : String
  secondary_color : String
  shorthand : String
  emoji : String
  slogan : String
  shame_runs : ℕ
  total_shames : ℕ
  total_shamings : ℕ
  season_shames : ℕ
  season_shamings : ℕ
  championships : ℕ

/-- A decoded-but-unchecked `Team` JSON object: the same fields with the four
rosters as plain JSON arrays of strings, in wire order. -/
structure TeamWire where
  id : String
  lineup : List String
  rotation : List String
  bullpen : List String
  bench : List String
  season_attributes : List String
  permanent_attributes : List String
  full_name : String
  location : String
  main_color : String
  nickname : String
  secondary_color : String
  shorthand : String
  emoji : String
  slogan : String
  shame_runs : ℕ
  total_shames : ℕ
  total_shamings : ℕ
  season_shames : ℕ
  season_shamings : ℕ
  championships : ℕ

/-- Serde's derived `Deserialize` for `Team` (`src/lib.rs` lines 36-62): a
JSON array deserializes into a `[String; n]` field exactly when it has `n`
elements, in wire order; a shorter array fails with an invalid-length error
and a longer one with a trailing-element error, both surfaced as
`serde_json::Error`, i.e. `Error::Json` (`DecodeError`). -/
def decodeTeam (w : TeamWire) : Except Error Team :=
  if h9 : w.lineup.length = 9 then
    if h5 : w.rotation.length = 5 then
      if h8 : w.bullpen.length = 8 then
        if h3 : w.bench.length = 3 then
          Except.ok
            { id := w.id
              lineup := ⟨w.lineup, h9⟩
              rotation := ⟨w.rotation, h5⟩
              bullpen := ⟨w.bullpen, h8⟩
              bench := ⟨w.bench, h3⟩
              season_attributes := w.season_attributes
              permanent_attributes := w.permanent_attributes
              full_name := w.full_name
              location := w.location
              main_color := w.main_color
              nickname := w.nickname
              secondary_color := w.secondary_color
              shorthand := w.shorthand
              emoji := w.emoji
              slogan := w.slogan
              shame_runs := w.shame_runs
              total_shames := w.total_shames
              total_shamings := w.total_shamings
              season_shames := w.season_shames
              season_shamings := w.season_shamings
              championships := w.championships }
        else Except.error Error.DecodeError
      else Except.error Error.DecodeError
    else Except.error Error.DecodeError
  else Except.error Error.DecodeError

/-! ## Login cookie extraction

Modelled from the spec: the `AuthenticatedClient` login module is called by
`examples/login.rs` (`AuthenticatedClient::user_pass`) but its source is
absent from `src/`; the definitions below follow §4.4 of the spec. -/

/-- Split a character list at every occurrence of `sep`, dropping the
separators (`n` separators yield `n + 1` chunks). -/
def splitOnChar (sep : Char) : List Char → List (List Char)
  | [] => [[]]
  | c :: cs =>
    if c = sep then [] :: splitOnChar sep cs
    else match splitOnChar sep cs with
      | [] => [[c]]
      | h :: t => (c :: h) :: t

/-- Modelled from the spec (§4.4): parse one `Set-Cookie` occurrence as a
cookie attribute string — the cookie pair is the part before the first `;`,
split at the first `=` into name and value; an occurrence without `=` does
not parse. -/
def parseCookie (s : String) : Option (String × String) :=
  match splitOnChar '=' ((splitOnChar ';' s.toList).headD []) with
  | [] => none
  | [_] => none
  | name :: rest => some (⟨name⟩, ⟨List.intercalate ['='] rest⟩)

/-- Modelled from the spec (§4.4): from the possibly-repeated session-cookie
header values, select the first parsed cookie whose name equals the fixed
constant `connect.sid` and keep only its value as the session token; if no
occurrence parses to that name, fail with `UnexpectedResponseShape`.  No
retry and no degraded session: the result is the token or that error. -/
def extractSessionToken (headers : List String) : Except Error String :=
  match (headers.filterMap parseCookie).find? (fun c => c.1 == "connect.sid") with
  | some c => Except.ok c.2
  | none => Except.error Error.UnexpectedResponseShape

/-- Shallow model of a public read operation such as `BlaseballClient::team`
(`src/lib.rs` lines 190-197): serialize the query (`set_query(..)?`), send
the request (`send(req).await?`), decode the body (`body_json().await?`),
each step propagating its error with `?` and never retrying. -/
def teamOp (encodeQuery : Except Error Unit) (send : Except Error String)
    (decodeBody : String → Except Error Team) : Except Error Team :=
  encodeQuery.bind (fun _ => send.bind decodeBody)

/-- All 26 `f64` attribute fields of a `Player` lie within `[0, 1]`. -/
structure Player.attrsInUnitInterval (p : Player) : Prop where
  anticapitalism : 0 ≤ p.anticapitalism ∧ p.anticapitalism ≤ 1
  base_thirst : 0 ≤ p.base_thirst ∧ p.base_thirst ≤ 1
  buoyancy : 0 ≤ p.buoyancy ∧ p.buoyancy ≤ 1
  chasiness : 0 ≤ p.chasiness ∧ p.chasiness ≤ 1
  coldness : 0 ≤ p.coldness ∧ p.coldness ≤ 1
  continuation : 0 ≤ p.continuation ∧ p.continuation ≤ 1
  divinity : 0 ≤ p.divinity ∧ p.divinity ≤ 1
  ground_friction : 0 ≤ p.ground_friction ∧ p.ground_friction ≤ 1
  indulgence : 0 ≤ p.indulgence ∧ p.indulgence ≤ 1
  laserlikeness : 0 ≤ p.laserlikeness ∧ p.laserlikeness ≤ 1
  martyrdom : 0 ≤ p.martyrdom ∧ p.martyrdom ≤ 1
  moxie : 0 ≤ p.moxie ∧ p.moxie ≤ 1
  musclitude : 0 ≤ p.musclitude ∧ p.musclitude ≤ 1
  omniscience : 0 ≤ p.omniscience ∧ p.omniscience ≤ 1
  overpowerment : 0 ≤ p.overpowerment ∧ p.overpowerment ≤ 1
  patheticism : 0 ≤ p.patheticism ∧ p.patheticism ≤ 1
  ruthlessness : 0 ≤ p.ruthlessness ∧ p.ruthlessness ≤ 1
  shakespearianism : 0 ≤ p.shakespearianism ∧ p.shakespearianism ≤ 1
  suppression : 0 ≤ p.suppression ∧ p.suppression ≤ 1
  tenaciousness : 0 ≤ p.tenaciousness ∧ p.tenaciousness ≤ 1
  thwackability : 0 ≤ p.thwackability ∧ p.thwackability ≤ 1
  tragicness : 0 ≤ p.tragicness ∧ p.tragicness ≤ 1
  unthwackability : 0 ≤ p.unthwackability ∧ p.unthwackability ≤ 1
  watchfulness : 0 ≤ p.watchfulness ∧ p.watchfulness ≤ 1
  pressurization : 0 ≤ p.pressurization ∧ p.pressurization ≤ 1
  cinnamon : 0 ≤ p.cinnamon ∧ p.cinnamon ≤ 1

/-- A concrete `Player` with every attribute in `[0, 1]`:
maximal pressurization, zero cinnamon, zero buoyancy. -/
noncomputable def cePlayer : Player :=
  { id := "00000000-0000-0000-0000-000000000000"
    anticapitalism := 0
    base_thirst := 0
    buoyancy := 0
    chasiness := 0
    coldness := 0
    continuation := 0
    divinity := 0
    ground_friction := 0
    indulgence := 0
    laserlikeness := 0
    martyrdom := 0
    moxie := 0
    musclitude := 0
    name := "Counter Example"
    bat := none
    omniscience := 0
    overpowerment := 0
    patheticism := 0
    ruthlessness := 0
    shakespearianism := 0
    suppression := 0
    tenaciousness := 0
    thwackability := 0
    tragicness := 0
    unthwackability := 0
    watchfulness := 0
    pressurization := 1
    total_fingers := 10
    soul := 1
    deceased := false
    peanut_allergy := false
    cinnamon := 0
    fate := 0
    armor := none
    ritual := none
    coffee := none
    blood := none }

theorem cePlayer_attrs_mem : cePlayer.attrsInUnitInterval := by
  constructor <;> constructor <;> norm_num [cePlayer]

theorem unit_mul {a b : ℝ} (ha : 0 ≤ a ∧ a ≤ 1) (hb : 0 ≤ b ∧ b ≤ 1) :
    0 ≤ a * b ∧ a * b ≤ 1 :=
  ⟨mul_nonneg ha.1 hb.1, mul_le_one₀ ha.2 hb.1 hb.2⟩

theorem unit_rpow {x e : ℝ} (hx : 0 ≤ x ∧ x ≤ 1) (he : 0 ≤ e) :
    0 ≤ x ^ e ∧ x ^ e ≤ 1 :=
  ⟨Real.rpow_nonneg hx.1 e, Real.rpow_le_one hx.1 hx.2 he⟩

theorem unit_one_sub {x : ℝ} (hx : 0 ≤ x ∧ x ≤ 1) : 0 ≤ 1 - x ∧ 1 - x ≤ 1 :=
  ⟨by linarith [hx.2], by linarith [hx.1]⟩

theorem batting_score_mem (p : Player) (hp : p.attrsInUnitInterval) :
    0 ≤ p.score Score.Batting ∧ p.score Score.Batting ≤ 1 :=
  unit_mul (unit_mul (unit_mul (unit_mul
    (unit_rpow (unit_one_sub hp.tragicness) (by norm_num))
    (unit_rpow (unit_one_sub hp.patheticism) (by norm_num)))
    (unit_rpow (unit_mul hp.thwackability hp.divinity) (by norm_num)))
    (unit_rpow (unit_mul hp.moxie hp.musclitude) (by norm_num)))
    (unit_rpow hp.martyrdom (by norm_num))

theorem pitching_score_mem (p : Player) (hp : p.attrsInUnitInterval) :
    0 ≤ p.score Score.Pitching ∧ p.score Score.Pitching ≤ 1 :=
  unit_mul (unit_mul (unit_mul (unit_mul
    (unit_rpow hp.unthwackability (by norm_num))
    (unit_rpow hp.ruthlessness (by norm_num)))
    (unit_rpow hp.overpowerment (by norm_num)))
    (unit_rpow hp.shakespearianism (by norm_num)))
    (unit_rpow hp.coldness (by norm_num))

theorem defense_score_mem (p : Player) (hp : p.attrsInUnitInterval) :
    0 ≤ p.score Score.Defense ∧ p.score Score.Defense ≤ 1 :=
  unit_mul
    (unit_rpow (unit_mul hp.omniscience hp.tenaciousness) (by norm_num))
    (unit_rpow (unit_mul (unit_mul hp.watchfulness hp.anticapitalism)
      hp.chasiness) (by norm_num))

theorem baserunning_score_mem (p : Player) (hp : p.attrsInUnitInterval) :
    0 ≤ p.score Score.Baserunning ∧ p.score Score.Baserunning ≤ 1 :=
  unit_mul
    (unit_rpow hp.laserlikeness (by norm_num))
    (unit_rpow (unit_mul (unit_mul (unit_mul hp.base_thirst hp.continuation)
      hp.ground_friction) hp.indulgence) (by norm_num))

theorem vibes_score_mem (p : Player) (hp : p.attrsInUnitInterval) (day : ℕ) :
    -1 ≤ p.score (Score.Vibes day) ∧ p.score (Score.Vibes day) ≤ 1 := by
  set c := Real.cos ((Real.pi * (day : ℝ)) / vibesDenominator p) with hc
  have hc1 : -1 ≤ c := Real.neg_one_le_cos _
  have hc2 : c ≤ 1 := Real.cos_le_one _
  have hP := hp.pressurization
  have hC := hp.cinnamon
  have hsum : 0 ≤ p.pressurization + p.cinnamon := by linarith [hP.1, hC.1]
  have hupper : (p.pressurization + p.cinnamon) * c ≤
      p.pressurization + p.cinnamon := mul_le_of_le_one_right hsum hc2
  have hlower : -(p.pressurization + p.cinnamon) ≤
      (p.pressurization + p.cinnamon) * c := by nlinarith
  show -1 ≤ 0.5 * round_to_even ((p.pressurization + p.cinnamon) * c
      - p.pressurization + p.cinnamon) ∧
    0.5 * round_to_even ((p.pressurization + p.cinnamon) * c
      - p.pressurization + p.cinnamon) ≤ 1
  rw [round_to_even_eq_rteInt]
  have ha := le_rteInt ((p.pressurization + p.cinnamon) * c
      - p.pressurization + p.cinnamon) (-2) (by push_cast; linarith [hP.2])
  have hb := rteInt_le ((p.pressurization + p.cinnamon) * c
      - p.pressurization + p.cinnamon) 2 (by push_cast; linarith [hC.2])
  have ha2 : ((-2 : ℤ) : ℝ) ≤ ((rteInt ((p.pressurization + p.cinnamon) * c
      - p.pressurization + p.cinnamon) : ℤ) : ℝ) := by exact_mod_cast ha
  have hb2 : ((rteInt ((p.pressurization + p.cinnamon) * c
      - p.pressurization + p.cinnamon) : ℤ) : ℝ) ≤ ((2 : ℤ) : ℝ) := by
    exact_mod_cast hb
  push_cast at ha2 hb2
  constructor <;> linarith

theorem rating_of_score_bounds (p : Player) (cat : Score) (a b : ℤ)
    (h1 : (a : ℝ) ≤ 10 * p.score cat) (h2 : 10 * p.score cat ≤ (b : ℝ)) :
    ∃ n : ℤ, p.rating cat = (n : ℝ) / 2 ∧ (a : ℝ) ≤ (n : ℝ) ∧
      (n : ℝ) ≤ (b : ℝ) := by
  refine ⟨rteInt (10 * p.score cat), ?_, ?_, ?_⟩
  · show 0.5 * round_to_even (10 * p.score cat) = _
    rw [round_to_even_eq_rteInt]
    ring
  · exact_mod_cast le_rteInt _ a h1
  · exact_mod_cast rteInt_le _ b h2

/-! ## Claim theorems -/

/-- C1: for every `Player` value, `score(player, category)` computes exactly
the per-category formula of the spec, with the written multiplication order:
the embedding of `Player::score` coincides, category by category, with the
formulas transcribed verbatim from the spec (`scoreSpec`). -/
theorem score_matches_spec (p : Player) (cat : Score) :
    p.score cat = scoreSpec p cat := by
  cases cat <;> rfl

/-- C2: for every `Player` value and category,
`rating(player, category) = 0.5 * round_to_even(10 * score(player, category))`;
as a Lean function it is pure and total by construction (no `Except`, no
partiality), matching "never fails". -/
theorem rating_eq_half_round_ten_score (p : Player) (cat : Score) :
    p.rating cat = 0.5 * round_to_even (10 * p.score cat) := rfl

/-- C3: for every finite double, `round_to_even` returns the nearest integer,
breaking exact ties toward the even integer (IEEE-754
`roundToIntegralTiesToEven`); the five listed half-integer values round to
their even neighbours; NaN maps to NaN and each infinity to itself. -/
theorem rteInt_int_add_half {α : Type} [LinearOrderedField α] [FloorRing α]
    (n : ℤ) : rteInt ((n : α) + 1/2) = if Even n then n else n + 1 := by
  have hfr : Int.fract ((n : α) + 1/2) = 1/2 := by
    rw [Int.fract_int_add, Int.fract_eq_self.mpr ⟨by norm_num, by norm_num⟩]
  have hfl : ⌊(n : α) + 1/2⌋ = n := by
    rw [Int.floor_int_add, Int.floor_eq_zero_iff.mpr ⟨by norm_num, by norm_num⟩,
      add_zero]
  unfold rteInt
  rw [if_pos hfr, hfl]

theorem round_to_even_half_value {α : Type} [LinearOrderedField α]
    [FloorRing α] (n : ℤ) :
    round_to_even ((n : α) + 1/2) = ((if Even n then n else n + 1 : ℤ) : α) := by
  rw [round_to_even_eq_rteInt, rteInt_int_add_half]

/-- C3: for every finite double, `round_to_even` returns the nearest integer,
breaking exact ties toward the even integer (IEEE-754
`roundToIntegralTiesToEven`); the five listed half-integer values round to
their even neighbours; NaN maps to NaN and each infinity to itself. -/
theorem round_to_even_ties_to_even :
    (∀ q : ℚ, ∃ n : ℤ, F64.round_to_even (F64.finite q) = F64.finite (n : ℚ) ∧
      |q - (n : ℚ)| ≤ 1/2 ∧ (|q - (n : ℚ)| = 1/2 → Even n)) ∧
    F64.round_to_even (F64.finite (1/2)) = F64.finite 0 ∧
    F64.round_to_even (F64.finite (3/2)) = F64.finite 2 ∧
    F64.round_to_even (F64.finite (5/2)) = F64.finite 2 ∧
    F64.round_to_even (F64.finite (-(1/2))) = F64.finite 0 ∧
    F64.round_to_even (F64.finite (-(3/2))) = F64.finite (-2) ∧
    F64.round_to_even F64.nan = F64.nan ∧
    (∀ b, F64.round_to_even (F64.inf b) = F64.inf b) := by
  have hval : ∀ m : ℤ, ∀ q : ℚ, q = (m : ℚ) + 1/2 →
      F64.round_to_even (F64.finite q) =
        F64.finite ((if Even m then m else m + 1 : ℤ) : ℚ) := by
    intro m q hq
    rw [hq, F64.round_to_even_finite, round_to_even_half_value]
  refine ⟨?_, ?_, ?_, ?_, ?_, ?_, rfl, fun b => by cases b <;> rfl⟩
  · intro q
    refine ⟨rteInt q, ?_, (rteInt_spec q).1, (rteInt_spec q).2⟩
    rw [F64.round_to_even_finite, round_to_even_eq_rteInt]
  · rw [hval 0 _ (by norm_num)]
    norm_num
  · rw [hval 1 _ (by norm_num)]
    norm_num [Int.even_iff]
  · rw [hval 2 _ (by norm_num)]
    norm_num [Int.even_iff]
  · rw [hval (-1) _ (by norm_num)]
    norm_num [Int.even_iff]
  · rw [hval (-2) _ (by norm_num)]
    norm_num [Int.even_iff]

/-- C4: on every finite double the hardware-accelerated `x86_64` path
(modelled by the documented ties-to-even semantics of
`_mm_round_pd(_, _MM_FROUND_TO_NEAREST_INT)`) and the portable software
fallback produce identical output, negative values and exact ties
included. -/
theorem round_to_even_sse_eq_fallback (q : ℚ) :
    F64.round_to_even_sse (F64.finite q) = F64.round_to_even (F64.finite q) := by
  rw [F64.round_to_even_finite, round_to_even_eq_rteInt]
  rfl

/-- C8: `round_to_even` is idempotent on every finite double. -/
theorem round_to_even_idempotent (q : ℚ) :
    F64.round_to_even (F64.round_to_even (F64.finite q)) =
      F64.round_to_even (F64.finite q) := by
  rw [F64.round_to_even_finite, round_to_even_eq_rteInt,
    F64.round_to_even_finite, round_to_even_intCast]

/-- C9: for buoyancy ≥ 0 the Vibes denominator `5 * buoyancy + 3` is at
least 3, hence nonzero, for every day. -/
theorem vibesDenominator_ge_three (p : Player) (h : 0 ≤ p.buoyancy) :
    3 ≤ vibesDenominator p ∧ vibesDenominator p ≠ 0 := by
  unfold vibesDenominator
  constructor
  · linarith
  · intro hc
    linarith [hc ▸ (by linarith : (3:ℝ) ≤ 5 * p.buoyancy + 3)]

/-- C10: decoding a `Team` succeeds exactly when the four rosters have 9, 5,
8 and 3 elements; any other length fails with a decode error; on success each
roster preserves the wire order of its identifiers. -/
theorem decodeTeam_roster_shape (w : TeamWire) :
    ((∃ t, decodeTeam w = Except.ok t) ↔
      (w.lineup.length = 9 ∧ w.rotation.length = 5 ∧ w.bullpen.length = 8 ∧
        w.bench.length = 3)) ∧
    (∀ t, decodeTeam w = Except.ok t →
      t.lineup.val = w.lineup ∧ t.rotation.val = w.rotation ∧
        t.bullpen.val = w.bullpen ∧ t.bench.val = w.bench) ∧
    (¬ (w.lineup.length = 9 ∧ w.rotation.length = 5 ∧ w.bullpen.length = 8 ∧
        w.bench.length = 3) →
      decodeTeam w = Except.error Error.DecodeError) := by
  by_cases h9 : w.lineup.length = 9 <;>
    by_cases h5 : w.rotation.length = 5 <;>
      by_cases h8 : w.bullpen.length = 8 <;>
        by_cases h3 : w.bench.length = 3 <;>
          simp only [decodeTeam, h9, h5, h8, h3, dif_pos, dif_neg,
            not_false_iff, not_true] <;>
        refine ⟨by simp [h9, h5, h8, h3], fun t ht => ?_,
          fun hn => by simp [h9, h5, h8, h3] at hn ⊢⟩ <;>
        first
          | (cases ht.symm
             exact ⟨rfl, rfl, rfl, rfl⟩)
          | cases ht

/-- C6: login cookie extraction: on the spec's example header set the stored
token is the value `ABC123` of the first cookie named `connect.sid` (not the
whole attribute string); in general extraction either returns a token that is
the value of some header's `connect.sid` cookie or fails with
`UnexpectedResponseShape` — never a retried or degraded outcome. -/
theorem login_cookie_extraction :
    extractSessionToken ["connect.sid=ABC123; Path=/", "other=xyz"] =
        Except.ok "ABC123" ∧
    (∀ headers, (∃ t, extractSessionToken headers = Except.ok t) ∨
      extractSessionToken headers = Except.error Error.UnexpectedResponseShape) ∧
    (∀ headers t, extractSessionToken headers = Except.ok t →
      ∃ h ∈ headers, parseCookie h = some ("connect.sid", t)) := by
  refine ⟨rfl, fun headers => ?_, fun headers t ht => ?_⟩
  · unfold extractSessionToken
    cases hfind : (headers.filterMap parseCookie).find?
        (fun c => c.1 == "connect.sid") with
    | some c => exact Or.inl ⟨c.2, rfl⟩
    | none => exact Or.inr rfl
  · unfold extractSessionToken at ht
    cases hfind : (headers.filterMap parseCookie).find?
        (fun c => c.1 == "connect.sid") with
    | some c =>
      rw [hfind] at ht
      have hname : c.1 = "connect.sid" := by
        have := List.find?_some hfind
        simpa using this
      have hmem : c ∈ headers.filterMap parseCookie :=
        List.mem_of_find?_eq_some hfind
      obtain ⟨h, hh, hph⟩ := List.mem_filterMap.mp hmem
      refine ⟨h, hh, ?_⟩
      have hc : c = ("connect.sid", t) := by
        cases ht
        exact Prod.ext hname rfl
      rw [hph, hc]
    | none => rw [hfind] at ht; cases ht

/-- C7: the error type is a closed enumeration of the four kinds
`TransportError`, `DecodeError`, `UnexpectedResponseShape`, `EncodingError`;
the `UnexpectedResponseShape` kind is the one produced by the login
cookie-extraction logic (its only failure); and an operation propagates a
collaborator failure immediately and unchanged (no retry, no recovery),
shown on the modelled `team` operation for each of its fallible stages. -/
theorem error_kinds_closed :
    (∀ e : Error, e = Error.TransportError ∨ e = Error.DecodeError ∨
      e = Error.UnexpectedResponseShape ∨ e = Error.EncodingError) ∧
    (∀ headers e, extractSessionToken headers = Except.error e →
      e = Error.UnexpectedResponseShape) ∧
    (∀ e send decodeBody,
      teamOp (Except.error e) send decodeBody = Except.error e) ∧
    (∀ e decodeBody,
      teamOp (Except.ok ()) (Except.error e) decodeBody = Except.error e) := by
  refine ⟨fun e => by cases e <;> simp, fun headers e he => ?_,
    fun e send decodeBody => rfl, fun e decodeBody => rfl⟩
  unfold extractSessionToken at he
  cases hfind : (headers.filterMap parseCookie).find?
      (fun c => c.1 == "connect.sid") with
  | some c => rw [hfind] at he; cases he
  | none =>
    rw [hfind] at he
    cases he
    rfl

/-- C5 counterexample: `cePlayer` has every attribute in `[0, 1]`, yet its
Vibes rating on day 3 is `-5`, outside `[0, 5]`: with pressurization 1,
cinnamon 0 and buoyancy 0 the day-3 cosine is `cos π = -1`, the inner Vibes
expression is `-2`, the score `-1` and the rating `-5`. -/
theorem rating_range_counterexample :
    cePlayer.attrsInUnitInterval ∧
      cePlayer.rating (Score.Vibes 3) = -5 ∧
      ¬ (0 ≤ cePlayer.rating (Score.Vibes 3)) := by
  have harg : (Real.pi * ((3 : ℕ) : ℝ)) / vibesDenominator cePlayer =
      Real.pi := by
    have h3 : vibesDenominator cePlayer = 3 := by
      norm_num [vibesDenominator, cePlayer]
    rw [h3]
    push_cast
    rw [mul_div_assoc]
    norm_num
  have hinner : (cePlayer.pressurization + cePlayer.cinnamon) *
      Real.cos ((Real.pi * ((3 : ℕ) : ℝ)) / vibesDenominator cePlayer)
      - cePlayer.pressurization + cePlayer.cinnamon = ((-2 : ℤ) : ℝ) := by
    rw [harg, Real.cos_pi]
    norm_num [cePlayer]
  have hscore : cePlayer.score (Score.Vibes 3) = -1 := by
    show 0.5 * round_to_even ((cePlayer.pressurization + cePlayer.cinnamon) *
      Real.cos ((Real.pi * ((3 : ℕ) : ℝ)) / vibesDenominator cePlayer)
      - cePlayer.pressurization + cePlayer.cinnamon) = -1
    rw [hinner, round_to_even_intCast]
    norm_num
  have hr : cePlayer.rating (Score.Vibes 3) = -5 := by
    show 0.5 * round_to_even (10 * cePlayer.score (Score.Vibes 3)) = -5
    rw [hscore, show (10 : ℝ) * (-1) = ((-10 : ℤ) : ℝ) by norm_num,
      round_to_even_intCast]
    norm_num
  exact ⟨cePlayer_attrs_mem, hr, by rw [hr]; norm_num⟩

/-- C5 (amended): for a `Player` with all attributes in `[0, 1]`, every
rating is an integer multiple of `0.5`; for the four attribute categories it
lies in `[0, 5]`, while the Vibes rating lies in `[-5, 5]` (it can reach
negative values, see the counterexample); no clamping occurs anywhere in the
computation. -/
theorem rating_range (p : Player) (hp : p.attrsInUnitInterval) (cat : Score) :
    (∃ n : ℤ, p.rating cat = (n : ℝ) / 2) ∧
      (match cat with
       | Score.Vibes _ => -5 ≤ p.rating cat ∧ p.rating cat ≤ 5
       | _ => 0 ≤ p.rating cat ∧ p.rating cat ≤ 5) := by
  have main : ∀ a b : ℤ, (a : ℝ) ≤ 10 * p.score cat →
      10 * p.score cat ≤ (b : ℝ) →
      ∃ n : ℤ, p.rating cat = (n : ℝ) / 2 ∧ (a : ℝ) / 2 ≤ p.rating cat ∧
        p.rating cat ≤ (b : ℝ) / 2 := by
    intro a b h1 h2
    obtain ⟨n, hr, hna, hnb⟩ := rating_of_score_bounds p cat a b h1 h2
    exact ⟨n, hr, by rw [hr]; linarith, by rw [hr]; linarith⟩
  cases cat with
  | Batting =>
    obtain ⟨h0, h1⟩ := batting_score_mem p hp
    obtain ⟨n, hr, hlo, hhi⟩ :=
      main 0 10 (by push_cast; linarith) (by push_cast; linarith)
    push_cast at hlo hhi
    exact ⟨⟨n, hr⟩, by linarith, by linarith⟩
  | Pitching =>
    obtain ⟨h0, h1⟩ := pitching_score_mem p hp
    obtain ⟨n, hr, hlo, hhi⟩ :=
      main 0 10 (by push_cast; linarith) (by push_cast; linarith)
    push_cast at hlo hhi
    exact ⟨⟨n, hr⟩, by linarith, by linarith⟩
  | Defense =>
    obtain ⟨h0, h1⟩ := defense_score_mem p hp
    obtain ⟨n, hr, hlo, hhi⟩ :=
      main 0 10 (by push_cast; linarith) (by push_cast; linarith)
    push_cast at hlo hhi
    exact ⟨⟨n, hr⟩, by linarith, by linarith⟩
  | Baserunning =>
    obtain ⟨h0, h1⟩ := baserunning_score_mem p hp
    obtain ⟨n, hr, hlo, hhi⟩ :=
      main 0 10 (by push_cast; linarith) (by push_cast; linarith)
    push_cast at hlo hhi
    exact ⟨⟨n, hr⟩, by linarith, by linarith⟩
  | Vibes day =>
    obtain ⟨h0, h1⟩ := vibes_score_mem p hp day
    obtain ⟨n, hr, hlo, hhi⟩ :=
      main (-10) 10 (by push_cast; linarith) (by push_cast; linarith)
    push_cast at hlo hhi
    exact ⟨⟨n, hr⟩, by linarith, by linarith⟩

/-- Witness for C5 (amended) at the concrete player `cePlayer` and the
Batting category. -/
theorem rating_range_witness :
    (∃ n : ℤ, cePlayer.rating Score.Batting = (n : ℝ) / 2) ∧
      (0 ≤ cePlayer.rating Score.Batting ∧
        cePlayer.rating Score.Batting ≤ 5) :=
  rating_range cePlayer cePlayer_attrs_mem Score.Batting

/-- Witness for C9 at the concrete player `cePlayer` (buoyancy `0`). -/
theorem vibesDenominator_ge_three_witness :
    3 ≤ vibesDenominator cePlayer ∧ vibesDenominator cePlayer ≠ 0 :=
  vibesDenominator_ge_three cePlayer (by norm_num [cePlayer])

end Blased
